import Mathlib

/-!
Shallow embedding of the exam-session controller implemented in
`src/App.tsx` (Civil Service Promotion CBT simulator), together with
proofs of the specified properties.

Modelling conventions:
* JavaScript numbers used as counters and indices are embedded as `Nat`
  (indices, scores, lengths) or `Int` (the countdown value, whose
  floor-at-zero behaviour we want to expose, and question numbers).
* The `percentage` value is embedded as `ℚ`; all percentage arithmetic
  performed by the program is exact on the values it actually produces,
  so rational arithmetic is a faithful idealization.
* A JavaScript object used as a map with integer keys (the `userAnswers`
  object) is embedded as an association list `List (Int × Letter)`.
  In JavaScript the keys are canonically coerced number↔string in both
  the write (`{...prev, [q]: a}`) and the read (`answers[q]`) direction,
  and this coercion is injective on integers, so the integer-keyed
  association list with first-match lookup and in-place overwrite is an
  exact model of the runtime object.
* `localStorage` holds a single serialized record under one key; it is
  embedded as an `Option Json` field of the application state, where
  `Json` is an abstract syntax tree of the serialized value
  (`JSON.stringify` / `JSON.parse` round-trip the tree exactly).
-/

/-- The four option letters of a question (`'A' | 'B' | 'C' | 'D'`). -/
inductive Letter where
  | A : Letter
  | B : Letter
  | C : Letter
  | D : Letter
deriving DecidableEq

/-- The `QuestionOptions` interface: one free-text choice per letter. -/
structure QuestionOptions where
  A : String
  B : String
  C : String
  D : String
deriving DecidableEq

/-- The `Question` interface of `App.tsx`. -/
structure Question where
  questionNumber : Int
  question : String
  options : QuestionOptions
  correctAnswer : Letter
deriving DecidableEq

/-- The `UserAnswers` map (`{[key: number]: 'A'|'B'|'C'|'D'}`), embedded as
an association list; see the modelling conventions above. -/
abbrev UserAnswers := List (Int × Letter)

/-- Lookup in the answers map: `userAnswers[q]` (first matching key, or
`undefined` embedded as `none`). -/
def lookupAnswer : UserAnswers → Int → Option Letter
  | [], _ => none
  | (k, v) :: rest, q => if k = q then some v else lookupAnswer rest q

/-- Update of the answers map, the semantics of `{...prev, [q]: a}`:
if the key is present its value is replaced in place, otherwise the new
entry is appended at the end. -/
def setAnswer : UserAnswers → Int → Letter → UserAnswers
  | [], q, a => [(q, a)]
  | (k, v) :: rest, q, a =>
      if k = q then (k, a) :: rest else (k, v) :: setAnswer rest q a

/-- The `ExamResult` interface of `App.tsx`. -/
structure ExamResult where
  score : Nat
  total : Nat
  percentage : ℚ
  answers : UserAnswers
  questions : List Question
  completedAt : String
deriving DecidableEq

/-- The `ExamState` union type: `'home' | 'exam' | 'results' | 'review'`. -/
inductive ExamScreenState where
  | home : ExamScreenState
  | exam : ExamScreenState
  | results : ExamScreenState
  | review : ExamScreenState
deriving DecidableEq

/-- Abstract syntax tree of a serialized JSON value, the image of
`JSON.stringify` (only the constructors this program produces). -/
inductive Json where
  | str : String → Json
  | num : ℚ → Json
  | arr : List Json → Json
  | obj : List (String × Json) → Json

/-- Decimal digit to character, as used by the canonical JavaScript
number-to-string conversion of a nonnegative integer. -/
def digitChar (d : Nat) : Char :=
  if d = 0 then '0' else if d = 1 then '1' else if d = 2 then '2'
  else if d = 3 then '3' else if d = 4 then '4' else if d = 5 then '5'
  else if d = 6 then '6' else if d = 7 then '7' else if d = 8 then '8'
  else if d = 9 then '9' else '*'

/-- Character to decimal digit (partial inverse of `digitChar`),
computed from the code point distance to the zero character. -/
def charDigit (c : Char) : Option Nat :=
  if '0' ≤ c ∧ c ≤ '9' then some (c.toNat - Char.toNat '0') else none

/-- Fuel-driven decimal printing of a natural number (most significant
digit first, accumulator style); `fuel` bounds the recursion depth. -/
def natKeyCharsAux : Nat → Nat → List Char → List Char
  | 0, _, acc => acc
  | fuel + 1, n, acc =>
      if n < 10 then digitChar n :: acc
      else natKeyCharsAux fuel (n / 10) (digitChar (n % 10) :: acc)

/-- The canonical decimal string of a natural number, the JavaScript
`String(n)` conversion applied to object keys by `JSON.stringify`. -/
def natKeyStr (n : Nat) : String :=
  String.mk (natKeyCharsAux (n + 1) n [])

/-- The canonical decimal string of an integer key. -/
def intKeyStr : Int → String
  | Int.ofNat n => natKeyStr n
  | Int.negSucc n => String.mk ('-' :: natKeyCharsAux (n + 2) (n + 1) [])

/-- Parse a digit string back to a natural number (accumulator style);
models reading a parsed object through integer-key coercion. -/
def natOfKeyAux : List Char → Nat → Option Nat
  | [], acc => some acc
  | c :: rest, acc =>
      match charDigit c with
      | some d => natOfKeyAux rest (10 * acc + d)
      | none => none

/-- Parse a canonical decimal key string back to the integer it
denotes (a leading dash marks a negative number). -/
def intOfKeyStr (s : String) : Option Int :=
  match s.data with
  | [] => none
  | c :: rest =>
      if c = '-' then (natOfKeyAux rest 0).map (fun n => -(n : Int))
      else (natOfKeyAux (c :: rest) 0).map (fun n => (n : Int))

/-- Serialized form of an option letter. -/
def letterStr : Letter → String
  | Letter.A => "A"
  | Letter.B => "B"
  | Letter.C => "C"
  | Letter.D => "D"

/-- Parse a serialized option letter. -/
def letterOfStr : String → Option Letter
  | "A" => some Letter.A
  | "B" => some Letter.B
  | "C" => some Letter.C
  | "D" => some Letter.D
  | _ => none

/-- Serialization of the `answers` map: each integer key becomes its
canonical decimal string, each letter its one-character string, exactly
as `JSON.stringify` renders the `userAnswers` object. -/
def encodeAnswers (m : UserAnswers) : List (String × Json) :=
  m.map (fun p => (intKeyStr p.1, Json.str (letterStr p.2)))

/-- Reading the parsed `answers` object back as an integer-keyed map
(via the canonical number↔string key coercion used at every access). -/
def decodeAnswers : List (String × Json) → Option UserAnswers
  | [] => some []
  | (k, Json.str v) :: rest =>
      match intOfKeyStr k, letterOfStr v with
      | some n, some l =>
          (decodeAnswers rest).map (fun m => (n, l) :: m)
      | _, _ => none
  | _ => none

/-- Serialization of a `Question` record, field order as produced by
`JSON.stringify` on the object literal. -/
def encodeQuestion (q : Question) : Json :=
  Json.obj
    [("questionNumber", Json.num (q.questionNumber : ℚ)),
     ("question", Json.str q.question),
     ("options", Json.obj
        [("A", Json.str q.options.A), ("B", Json.str q.options.B),
         ("C", Json.str q.options.C), ("D", Json.str q.options.D)]),
     ("correctAnswer", Json.str (letterStr q.correctAnswer))]

/-- Parse a serialized `Question` record. -/
def decodeQuestion : Json → Option Question
  | Json.obj
      [("questionNumber", Json.num n),
       ("question", Json.str t),
       ("options", Json.obj
          [("A", Json.str a), ("B", Json.str b),
           ("C", Json.str c), ("D", Json.str d)]),
       ("correctAnswer", Json.str ca)] =>
      if n.den = 1 then
        (letterOfStr ca).map (fun l =>
          { questionNumber := n.num, question := t,
            options := { A := a, B := b, C := c, D := d },
            correctAnswer := l })
      else none
  | _ => none

/-- Parse a serialized list of questions. -/
def decodeQuestions : List Json → Option (List Question)
  | [] => some []
  | j :: rest =>
      match decodeQuestion j, decodeQuestions rest with
      | some q, some qs => some (q :: qs)
      | _, _ => none

/-- Parse a serialized nonnegative integer (a JSON number with
denominator one and nonnegative numerator) back to a `Nat`. -/
def natOfJsonNum (q : ℚ) : Option Nat :=
  if q.den = 1 ∧ 0 ≤ q.num then some q.num.toNat else none

/-- Serialization of an `ExamResult`, field order as written by
`handleSubmit` into the object literal passed to `JSON.stringify`. -/
def encodeResult (r : ExamResult) : Json :=
  Json.obj
    [("score", Json.num (r.score : ℚ)),
     ("total", Json.num (r.total : ℚ)),
     ("percentage", Json.num r.percentage),
     ("answers", Json.obj (encodeAnswers r.answers)),
     ("questions", Json.arr (r.questions.map encodeQuestion)),
     ("completedAt", Json.str r.completedAt)]

/-- Parse a persisted `ExamResult` (`JSON.parse` of the stored string,
read back through the integer-key coercion described above). -/
def decodeResult : Json → Option ExamResult
  | Json.obj
      [("score", Json.num s),
       ("total", Json.num t),
       ("percentage", Json.num p),
       ("answers", Json.obj ja),
       ("questions", Json.arr jq),
       ("completedAt", Json.str c)] =>
      match natOfJsonNum s, natOfJsonNum t, decodeAnswers ja,
          decodeQuestions jq with
      | some sc, some tot, some ans, some qs =>
          some { score := sc, total := tot, percentage := p,
                 answers := ans, questions := qs, completedAt := c }
      | _, _, _, _ => none
  | _ => none

/-- The whole component state of `App` (the `useState` hooks), plus the
`localStorage` slot holding the serialized last result. -/
structure AppState where
  examState : ExamScreenState
  questions : List Question
  currentQuestionIndex : Nat
  userAnswers : UserAnswers
  timeLeft : Int
  score : Nat
  lastExamResult : Option ExamResult
  storage : Option Json

/-- The scoring loop of `handleSubmit`: count the selected questions
whose recorded answer equals the correct answer (an absent answer never
matches and never throws). -/
def computeScore (qs : List Question) (ans : UserAnswers) : Nat :=
  qs.countP (fun q =>
    decide (lookupAnswer ans q.questionNumber = some q.correctAnswer))

/-- `handleSubmit` (lines 107–127): computes the score and percentage,
builds the `ExamResult` snapshot with the current timestamp `now`,
stores it in the state and in `localStorage`, and moves to `results`. -/
def handleSubmit (now : String) (s : AppState) : AppState :=
  let correct := computeScore s.questions s.userAnswers
  let percentage : ℚ := ((correct : ℚ) / (s.questions.length : ℚ)) * 100
  let result : ExamResult :=
    { score := correct, total := s.questions.length,
      percentage := percentage, answers := s.userAnswers,
      questions := s.questions, completedAt := now }
  { s with score := correct,
           lastExamResult := some result,
           storage := some (encodeResult result),
           examState := ExamScreenState.results }

/-- `startExam` (lines 75–89): `shuffled` is the output of the
comparator-based shuffle of the bank (some permutation of it); the
selection is `shuffled.slice(0, Math.min(100, shuffled.length))`, and
the session fields are reset. -/
def startExam (shuffled : List Question) (s : AppState) : AppState :=
  let selected := shuffled.take (min 100 shuffled.length)
  { s with questions := selected,
           currentQuestionIndex := 0,
           userAnswers := [],
           timeLeft := 50 * 60,
           score := 0,
           examState := ExamScreenState.exam }

/-- `handleAnswerChange` (lines 91–93). -/
def handleAnswerChange (s : AppState) (questionNumber : Int)
    (answer : Letter) : AppState :=
  { s with userAnswers := setAnswer s.userAnswers questionNumber answer }

/-- `handleNext` (lines 95–99). -/
def handleNext (s : AppState) : AppState :=
  if s.currentQuestionIndex < s.questions.length - 1 then
    { s with currentQuestionIndex := s.currentQuestionIndex + 1 }
  else s

/-- `handlePrevious` (lines 101–105). -/
def handlePrevious (s : AppState) : AppState :=
  if 0 < s.currentQuestionIndex then
    { s with currentQuestionIndex := s.currentQuestionIndex - 1 }
  else s

/-- A click on navigator button `idx` (lines 391–404): the grid renders
one button per index of `questions` (`questions.map((q, idx) => ...)`),
so a button exists exactly for `idx < questions.length`; clicking it
runs `setCurrentQuestionIndex(idx)`, and an index with no button cannot
be requested (modelled as a no-op). -/
def clickNavigator (s : AppState) (idx : Nat) : AppState :=
  if idx < s.questions.length then { s with currentQuestionIndex := idx }
  else s

/-- `viewLastExam` (lines 129–136). -/
def viewLastExam (s : AppState) : AppState :=
  match s.lastExamResult with
  | some r =>
      { s with questions := r.questions,
               userAnswers := r.answers,
               score := r.score,
               examState := ExamScreenState.review }
  | none => s

/-- `goHome` (lines 138–140). -/
def goHome (s : AppState) : AppState :=
  { s with examState := ExamScreenState.home }

/-- The timer effect body (lines 58–67) as re-evaluated after a state
change: when the state is `exam` and the countdown has hit zero it
invokes `handleSubmit`. -/
def timerEffect (now : String) (s : AppState) : AppState :=
  if s.examState = ExamScreenState.exam ∧ s.timeLeft = 0 then
    handleSubmit now s
  else s

/-- One countdown tick: the interval is armed only while the state is
`exam` with positive time (line 59), its callback decrements
`timeLeft` (line 61), and the effect then re-runs on the new state and
auto-submits if the decremented value is zero (lines 64–66). -/
def tick (now : String) (s : AppState) : AppState :=
  if s.examState = ExamScreenState.exam ∧ 0 < s.timeLeft then
    timerEffect now { s with timeLeft := s.timeLeft - 1 }
  else s

/-- `tick` instrumented with a counter of `handleSubmit` invocations
(the decremented state keeps the `exam` tag, so the effect's auto-submit
condition reduces to the decremented countdown being zero; the lemma
relating the first component to `tick` is proved below). -/
def tickCounted (now : String) : AppState × Nat → AppState × Nat :=
  fun p =>
    if p.1.examState = ExamScreenState.exam ∧ 0 < p.1.timeLeft then
      if p.1.timeLeft - 1 = 0 then
        (handleSubmit now { p.1 with timeLeft := p.1.timeLeft - 1 }, p.2 + 1)
      else ({ p.1 with timeLeft := p.1.timeLeft - 1 }, p.2)
    else p

/-- The load-on-mount effect (lines 50–55): if the storage slot holds a
value, parse it and install it as `lastExamResult`. -/
def loadStoredResult (s : AppState) : AppState :=
  match s.storage with
  | some j =>
      match decodeResult j with
      | some r => { s with lastExamResult := some r }
      | none => s
  | none => s

/-- The four top-level screens the render function can return. -/
inductive Screen where
  | homeScreen : Screen
  | resultsReviewScreen : Screen
  | loadingScreen : Screen
  | examScreen : Screen
deriving DecidableEq

/-- Which screen `App` renders (the cascade of early returns at lines
143, 203, 291 and the final exam screen). -/
def render (s : AppState) : Screen :=
  if s.examState = ExamScreenState.home then Screen.homeScreen
  else if s.examState = ExamScreenState.results ∨
      s.examState = ExamScreenState.review then Screen.resultsReviewScreen
  else if s.questions.length = 0 then Screen.loadingScreen
  else Screen.examScreen

/-- The pass/fail classification of a percentage (lines 175–177):
`percentage >= 70` is passed. -/
def isPassed (percentage : ℚ) : Bool :=
  decide (70 ≤ percentage)

/-- The two-decimal rounding performed by `toFixed(2)` followed by
`parseFloat` on the results screen (line 204 and 218), idealized over
the rationals (round half away from zero on nonnegative inputs). -/
def toFixed2 (x : ℚ) : ℚ :=
  ((round (x * 100) : ℤ) : ℚ) / 100

/-- The results/review screen classification (lines 204–218):
`parseFloat(((score / questions.length) * 100).toFixed(2)) >= 70`. -/
def resultsScreenPassed (score total : Nat) : Bool :=
  decide (70 ≤ toFixed2 (((score : ℚ) / (total : ℚ)) * 100))

/-- Fixed option texts used by the concrete test bank. -/
def sampleOptions : QuestionOptions :=
  { A := "option a", B := "option b", C := "option c", D := "option d" }

/-- A concrete question with a given number and correct answer. -/
def sampleQuestion (n : Int) (ca : Letter) : Question :=
  { questionNumber := n, question := "sample question",
    options := sampleOptions, correctAnswer := ca }

/-- The five-question bank of the specification's scoring example:
correct answers `[A, B, C, D, A]`. -/
def sampleQuestions : List Question :=
  [sampleQuestion 1 Letter.A, sampleQuestion 2 Letter.B,
   sampleQuestion 3 Letter.C, sampleQuestion 4 Letter.D,
   sampleQuestion 5 Letter.A]

/-- The user answers of the scoring example: question 2 unanswered,
question 5 answered wrongly. -/
def sampleAnswers : UserAnswers :=
  [(1, Letter.A), (3, Letter.C), (4, Letter.D), (5, Letter.B)]

/-- The initial component state (the `useState` initializers). -/
def initialState : AppState :=
  { examState := ExamScreenState.home, questions := [],
    currentQuestionIndex := 0, userAnswers := [], timeLeft := 50 * 60,
    score := 0, lastExamResult := none, storage := none }

/-- A concrete mid-exam state over the five-question bank. -/
def sampleExamState : AppState :=
  { initialState with examState := ExamScreenState.exam,
                      questions := sampleQuestions,
                      userAnswers := sampleAnswers }

/-- A concrete result whose answers map has non-contiguous keys. -/
def sampleNonContigResult : ExamResult :=
  { score := 1, total := 2, percentage := 50,
    answers := [(3, Letter.B), (17, Letter.D)],
    questions := sampleQuestions, completedAt := "1/1/2026, 12:00:00 PM" }

/-- The result record produced by submitting the concrete example state
(three of five questions answered correctly). -/
def sampleSubmittedResult : ExamResult :=
  { score := 3, total := 5,
    percentage := ((3 : Nat) : ℚ) / ((5 : Nat) : ℚ) * 100,
    answers := sampleAnswers, questions := sampleQuestions,
    completedAt := "t" }

theorem lookupAnswer_setAnswer_self (m : UserAnswers) (q : Int) (a : Letter) :
    lookupAnswer (setAnswer m q a) q = some a := by
  induction m with
  | nil => simp [setAnswer, lookupAnswer]
  | cons p rest ih =>
      obtain ⟨k, v⟩ := p
      by_cases h : k = q
      · simp [setAnswer, lookupAnswer, h]
      · simp [setAnswer, lookupAnswer, h, ih]

theorem lookupAnswer_setAnswer_ne (m : UserAnswers) (q k : Int) (a : Letter)
    (h : k ≠ q) : lookupAnswer (setAnswer m q a) k = lookupAnswer m k := by
  induction m with
  | nil => simp [setAnswer, lookupAnswer, Ne.symm h]
  | cons p rest ih =>
      obtain ⟨k', v⟩ := p
      by_cases h' : k' = q
      · subst h'
        simp [setAnswer, lookupAnswer, Ne.symm h]
      · simp [setAnswer, lookupAnswer, h', ih]

theorem setAnswer_setAnswer_same (m : UserAnswers) (q : Int) (a : Letter) :
    setAnswer (setAnswer m q a) q a = setAnswer m q a := by
  induction m with
  | nil => simp [setAnswer]
  | cons p rest ih =>
      obtain ⟨k, v⟩ := p
      by_cases h : k = q
      · simp [setAnswer, h]
      · simp [setAnswer, h, ih]

/-- Claim C6: starting with an empty (or not yet loaded) question bank
does not surface the exam screen: the selection is empty and the
rendered display is the loading/empty screen, with no failure (the
transition function is total). -/
theorem startExam_empty_bank (s : AppState) :
    (startExam [] s).questions = [] ∧
    render (startExam [] s) = Screen.loadingScreen ∧
    render (startExam [] s) ≠ Screen.examScreen := by
  refine ⟨rfl, rfl, ?_⟩
  intro h
  exact Screen.noConfusion h

/-- Claim C7: `viewLastResult()` with no persisted result is a silent
no-op; with a persisted result it loads that result's questions and
answers into the session and moves to the review state. -/
theorem viewLastExam_spec (s : AppState) :
    (s.lastExamResult = none → viewLastExam s = s) ∧
    (∀ r, s.lastExamResult = some r →
       (viewLastExam s).examState = ExamScreenState.review ∧
       (viewLastExam s).questions = r.questions ∧
       (viewLastExam s).userAnswers = r.answers ∧
       (viewLastExam s).score = r.score) := by
  constructor
  · intro h
    simp [viewLastExam, h]
  · intro r h
    simp [viewLastExam, h]

/-- Witness for claim C7 at a state with nothing persisted. -/
theorem viewLastExam_spec_witness : viewLastExam initialState = initialState :=
  (viewLastExam_spec initialState).1 rfl

/-- Claim C8: for a question in the selection, selecting `l1` then `l2`
leaves the recorded answer equal to `l2` (last write wins), and
selecting the same letter twice is idempotent on the whole state. -/
theorem selectAnswer_last_write_wins (s : AppState) (q : Int)
    (l1 l2 : Letter) (hq : q ∈ s.questions.map Question.questionNumber) :
    lookupAnswer
      ((handleAnswerChange (handleAnswerChange s q l1) q l2).userAnswers) q
      = some l2 ∧
    handleAnswerChange (handleAnswerChange s q l1) q l1 =
      handleAnswerChange s q l1 := by
  constructor
  · simp [handleAnswerChange, lookupAnswer_setAnswer_self]
  · simp [handleAnswerChange, setAnswer_setAnswer_same]

/-- Witness for claim C8 on the concrete five-question state. -/
theorem selectAnswer_last_write_wins_witness :
    lookupAnswer
      ((handleAnswerChange (handleAnswerChange sampleExamState 1 Letter.A)
          1 Letter.B).userAnswers) 1 = some Letter.B :=
  (selectAnswer_last_write_wins sampleExamState 1 Letter.A Letter.B
    (by decide)).1

theorem computeScore_setAnswer_not_mem (qs : List Question)
    (ans : UserAnswers) (n : Int) (l : Letter) :
    (∀ q ∈ qs, q.questionNumber ≠ n) →
    computeScore qs (setAnswer ans n l) = computeScore qs ans := by
  induction qs with
  | nil => intro _; rfl
  | cons q qs ih =>
      intro h
      have hq : q.questionNumber ≠ n := h q (List.mem_cons_self q qs)
      have hrest : ∀ q' ∈ qs, q'.questionNumber ≠ n :=
        fun q' hq' => h q' (List.mem_cons_of_mem q hq')
      have htail := ih hrest
      simp only [computeScore, List.countP_cons] at htail ⊢
      rw [lookupAnswer_setAnswer_ne ans n q.questionNumber l hq]
      omega

/-- Claim C10: `selectAnswer` records an answer for any integer key,
present in the selection or not, and a key outside the selection never
changes the submitted score or percentage (scoring iterates over the
selected questions, not over the answers map). -/
theorem strayAnswer_no_effect (s : AppState) (n : Int) (l : Letter)
    (now : String) (hn : n ∉ s.questions.map Question.questionNumber) :
    lookupAnswer (handleAnswerChange s n l).userAnswers n = some l ∧
    (handleSubmit now (handleAnswerChange s n l)).score =
      (handleSubmit now s).score ∧
    ((handleSubmit now (handleAnswerChange s n l)).lastExamResult.map
        ExamResult.percentage) =
      ((handleSubmit now s).lastExamResult.map ExamResult.percentage) := by
  have hmem : ∀ q ∈ s.questions, q.questionNumber ≠ n := by
    intro q hq heq
    exact hn (List.mem_map.mpr ⟨q, hq, heq⟩)
  have hscore : computeScore s.questions (setAnswer s.userAnswers n l) =
      computeScore s.questions s.userAnswers :=
    computeScore_setAnswer_not_mem _ _ _ _ hmem
  refine ⟨lookupAnswer_setAnswer_self _ _ _, ?_, ?_⟩
  · simp [handleSubmit, handleAnswerChange, hscore]
  · simp [handleSubmit, handleAnswerChange, hscore]

/-- Witness for claim C10 with the stray key 99. -/
theorem strayAnswer_no_effect_witness :
    lookupAnswer (handleAnswerChange sampleExamState 99 Letter.A).userAnswers
      99 = some Letter.A :=
  (strayAnswer_no_effect sampleExamState 99 Letter.A "t" (by decide)).1

/-- Claim C5: from any exam state whose index is in bounds, `next` and
`previous` move by one and are no-ops at the last index and at index 0
respectively, every navigation handler keeps the index in bounds, and a
navigator jump one past the end is rejected (no button exists for it). -/
theorem navigation_in_bounds (s : AppState)
    (hlt : s.currentQuestionIndex < s.questions.length) :
    (s.currentQuestionIndex < s.questions.length - 1 →
       (handleNext s).currentQuestionIndex = s.currentQuestionIndex + 1) ∧
    (¬ s.currentQuestionIndex < s.questions.length - 1 →
       handleNext s = s) ∧
    (0 < s.currentQuestionIndex →
       (handlePrevious s).currentQuestionIndex =
         s.currentQuestionIndex - 1) ∧
    (s.currentQuestionIndex = 0 → handlePrevious s = s) ∧
    (handleNext s).currentQuestionIndex < s.questions.length ∧
    (handlePrevious s).currentQuestionIndex < s.questions.length ∧
    (∀ idx, (clickNavigator s idx).currentQuestionIndex <
       s.questions.length) ∧
    clickNavigator s s.questions.length = s := by
  refine ⟨?_, ?_, ?_, ?_, ?_, ?_, ?_, ?_⟩
  · intro h
    simp [handleNext, h]
  · intro h
    simp [handleNext, h]
  · intro h
    simp [handlePrevious, h]
  · intro h
    simp [handlePrevious, h]
  · unfold handleNext
    split_ifs with h
    · simp only []
      omega
    · exact hlt
  · unfold handlePrevious
    split_ifs with h
    · simp only []
      omega
    · exact hlt
  · intro idx
    unfold clickNavigator
    split_ifs with h
    · simpa using h
    · exact hlt
  · unfold clickNavigator
    rw [if_neg (lt_irrefl _)]

/-- Witness for claim C5: jumping one past the end of the five-question
selection is a no-op. -/
theorem navigation_in_bounds_witness :
    clickNavigator sampleExamState sampleExamState.questions.length =
      sampleExamState :=
  (navigation_in_bounds sampleExamState (by decide)).2.2.2.2.2.2.2

/-- Claim C1: on submission the score counts exactly the selected
questions whose recorded answer equals their correct answer (an absent
answer counts as incorrect), the stored percentage is score over total
times 100, and on the specification's five-question example the score
is 3 and the percentage exactly 60. -/
theorem submit_scoring (now : String) (s : AppState)
    (hs : s.examState = ExamScreenState.exam) :
    (handleSubmit now s).score =
      (s.questions.filter (fun q =>
         decide (lookupAnswer s.userAnswers q.questionNumber =
           some q.correctAnswer))).length ∧
    (∀ r, (handleSubmit now s).lastExamResult = some r →
       r.score = (handleSubmit now s).score ∧
       r.total = s.questions.length ∧
       r.percentage = ((r.score : ℚ) / (r.total : ℚ)) * 100) ∧
    (handleSubmit now sampleExamState).score = 3 ∧
    (∀ r, (handleSubmit now sampleExamState).lastExamResult = some r →
       r.percentage = 60) := by
  refine ⟨?_, ?_, ?_, ?_⟩
  · simp [handleSubmit, computeScore, List.countP_eq_length_filter]
  · intro r h
    simp only [handleSubmit] at h
    rw [Option.some_inj] at h
    subst h
    exact ⟨rfl, rfl, rfl⟩
  · rfl
  · intro r h
    have hsc : computeScore sampleExamState.questions
        sampleExamState.userAnswers = 3 := by decide
    have hlen : sampleExamState.questions.length = 5 := by decide
    simp only [handleSubmit, hsc, hlen] at h
    rw [Option.some_inj] at h
    subst h
    norm_num

/-- Witness for claim C1 on the specification's scoring example. -/
theorem submit_scoring_witness :
    (handleSubmit "1/1/2026" sampleExamState).score = 3 :=
  (submit_scoring "1/1/2026" sampleExamState rfl).2.2.1

/-- Claim C2: starting an exam from any permutation the shuffle can
produce of a bank with distinct question numbers selects exactly
`min 100 N` questions, all distinct and all drawn from the bank, and
resets the index, the answers and the timer. -/
theorem startExam_selection (bank shuffled : List Question) (s : AppState)
    (hperm : shuffled.Perm bank) (hN : bank ≠ [])
    (hnodup : (bank.map Question.questionNumber).Nodup) :
    (startExam shuffled s).questions.length = min 100 bank.length ∧
    (startExam shuffled s).questions.Nodup ∧
    (∀ q ∈ (startExam shuffled s).questions, q ∈ bank) ∧
    (startExam shuffled s).currentQuestionIndex = 0 ∧
    (startExam shuffled s).userAnswers = [] ∧
    (startExam shuffled s).timeLeft = 3000 := by
  have hlen := hperm.length_eq
  have hbank : bank.Nodup := hnodup.of_map
  have hsh : shuffled.Nodup := (hperm.nodup_iff).mpr hbank
  refine ⟨?_, ?_, ?_, rfl, rfl, rfl⟩
  · simp only [startExam]
    rw [List.length_take]
    omega
  · simp only [startExam]
    exact hsh.sublist (List.take_sublist _ _)
  · intro q hq
    simp only [startExam] at hq
    exact hperm.subset (List.mem_of_mem_take hq)

/-- Witness for claim C2 on a reversed five-question bank. -/
theorem startExam_selection_witness :
    (startExam sampleQuestions.reverse initialState).questions.length =
      min 100 sampleQuestions.length :=
  (startExam_selection sampleQuestions sampleQuestions.reverse initialState
    (sampleQuestions.reverse_perm) (by decide) (by decide)).1

theorem tickCounted_fst (now : String) (p : AppState × Nat) :
    (tickCounted now p).1 = tick now p.1 := by
  by_cases h : p.1.examState = ExamScreenState.exam ∧ 0 < p.1.timeLeft
  · simp only [tickCounted, tick, timerEffect, if_pos h]
    by_cases h0 : p.1.timeLeft - 1 = 0
    · rw [if_pos h0, if_pos ⟨h.1, h0⟩]
    · rw [if_neg h0, if_neg (fun hc => h0 hc.2)]
  · simp only [tickCounted, tick, if_neg h]

theorem tickCounted_results (now : String) (p : AppState × Nat)
    (h : p.1.examState = ExamScreenState.results) : tickCounted now p = p := by
  have hne : ¬(p.1.examState = ExamScreenState.exam ∧ 0 < p.1.timeLeft) := by
    rintro ⟨h1, -⟩
    rw [h] at h1
    exact ExamScreenState.noConfusion h1
  simp only [tickCounted, if_neg hne]

theorem tickCounted_run (now : String) :
    ∀ (n : Nat) (s : AppState) (c : Nat),
      s.examState = ExamScreenState.exam → s.timeLeft = (n : Int) + 1 →
      (tickCounted now)^[n + 1] (s, c) =
        (handleSubmit now { s with timeLeft := 0 }, c + 1) := by
  intro n
  induction n with
  | zero =>
      intro s c hst hT
      have h0 : s.timeLeft - 1 = 0 := by omega
      rw [Function.iterate_one]
      simp only [tickCounted]
      rw [if_pos ⟨hst, by omega⟩, if_pos h0, h0]
  | succ n ih =>
      intro s c hst hT
      have hpos : 0 < s.timeLeft := by push_cast at hT; omega
      have hne : ¬ s.timeLeft - 1 = 0 := by push_cast at hT; omega
      rw [Function.iterate_succ_apply]
      have hstep : tickCounted now (s, c) =
          ({ s with timeLeft := s.timeLeft - 1 }, c) := by
        simp only [tickCounted]
        rw [if_pos ⟨hst, hpos⟩, if_neg hne]
      rw [hstep]
      have hrec := ih { s with timeLeft := s.timeLeft - 1 } c hst
        (by show s.timeLeft - 1 = (n : Int) + 1; push_cast at hT; omega)
      rw [hrec]

/-- Claim C3: the instrumented tick agrees with `tick`; each tick in an
exam state with positive time decrements the countdown by exactly one;
the countdown never becomes negative; and 3000 consecutive ticks from a
fresh exam state drive the countdown to 0, trigger exactly one
automatic submission, and leave the state in `results` with no further
decrement on later ticks. -/
theorem countdown_spec :
    (∀ now (p : AppState × Nat), (tickCounted now p).1 = tick now p.1) ∧
    (∀ now (s : AppState), s.examState = ExamScreenState.exam →
       0 < s.timeLeft → (tick now s).timeLeft = s.timeLeft - 1) ∧
    (∀ now (s : AppState), 0 ≤ s.timeLeft → 0 ≤ (tick now s).timeLeft) ∧
    (∀ now (s : AppState) (m : Nat), s.examState = ExamScreenState.exam →
       s.timeLeft = 3000 →
       ((tickCounted now)^[3000 + m] (s, 0)).2 = 1 ∧
       ((tickCounted now)^[3000 + m] (s, 0)).1.timeLeft = 0 ∧
       ((tickCounted now)^[3000 + m] (s, 0)).1.examState =
         ExamScreenState.results) := by
  refine ⟨tickCounted_fst, ?_, ?_, ?_⟩
  · intro now s h1 h2
    unfold tick timerEffect
    rw [if_pos ⟨h1, h2⟩]
    split_ifs <;> rfl
  · intro now s h
    unfold tick timerEffect
    split_ifs with h1 h2
    · change 0 ≤ s.timeLeft - 1
      obtain ⟨-, hpos⟩ := h1
      omega
    · change 0 ≤ s.timeLeft - 1
      obtain ⟨-, hpos⟩ := h1
      omega
    · exact h
  · intro now s m hst hT
    have h3000 : (tickCounted now)^[3000] (s, 0) =
        (handleSubmit now { s with timeLeft := 0 }, 1) := by
      have h := tickCounted_run now 2999 s 0 hst (by rw [hT]; norm_num)
      rw [show (2999 : Nat) + 1 = 3000 from rfl] at h
      exact h
    rw [show 3000 + m = m + 3000 from Nat.add_comm _ _,
      Function.iterate_add_apply, h3000]
    have hfix : (tickCounted now)^[m]
        (handleSubmit now { s with timeLeft := 0 }, 1) =
        (handleSubmit now { s with timeLeft := 0 }, 1) :=
      Function.iterate_fixed
        (tickCounted_results now (handleSubmit now { s with timeLeft := 0 }, 1)
          rfl) m
    rw [hfix]
    exact ⟨rfl, rfl, rfl⟩

/-- Witness for claim C3: 3000 ticks from the concrete fresh exam state
produce exactly one automatic submission. -/
theorem countdown_spec_witness :
    ((tickCounted "t")^[3000 + 0] (sampleExamState, 0)).2 = 1 :=
  (countdown_spec.2.2.2 "t" sampleExamState 0 rfl rfl).1

theorem natKeyCharsAux_append (fuel : Nat) :
    ∀ (n : Nat) (acc : List Char),
      natKeyCharsAux fuel n acc = natKeyCharsAux fuel n [] ++ acc := by
  induction fuel with
  | zero => intro n acc; simp [natKeyCharsAux]
  | succ fuel ih =>
      intro n acc
      by_cases h : n < 10
      · simp [natKeyCharsAux, h]
      · simp only [natKeyCharsAux, if_neg h]
        rw [ih (n / 10) (digitChar (n % 10) :: acc),
            ih (n / 10) [digitChar (n % 10)]]
        simp

theorem natKeyCharsAux_ne_nil (fuel n : Nat) (acc : List Char) :
    natKeyCharsAux (fuel + 1) n acc ≠ [] := by
  by_cases h : n < 10
  · simp [natKeyCharsAux, h]
  · simp only [natKeyCharsAux, if_neg h]
    rw [natKeyCharsAux_append]
    simp

theorem mem_natKeyCharsAux (fuel : Nat) :
    ∀ (n : Nat) (acc : List Char) (c : Char),
      c ∈ natKeyCharsAux fuel n acc →
      c ∈ acc ∨ ∃ d, d < 10 ∧ c = digitChar d := by
  induction fuel with
  | zero => intro n acc c h; exact Or.inl h
  | succ fuel ih =>
      intro n acc c h
      by_cases hn : n < 10
      · simp only [natKeyCharsAux, if_pos hn] at h
        rcases List.mem_cons.mp h with h1 | h1
        · exact Or.inr ⟨n, hn, h1⟩
        · exact Or.inl h1
      · simp only [natKeyCharsAux, if_neg hn] at h
        rcases ih (n / 10) (digitChar (n % 10) :: acc) c h with h1 | h1
        · rcases List.mem_cons.mp h1 with h2 | h2
          · exact Or.inr ⟨n % 10, Nat.mod_lt n (by norm_num), h2⟩
          · exact Or.inl h2
        · exact Or.inr h1

theorem digitChar_ne_dash (d : Nat) : digitChar d ≠ '-' := by
  unfold digitChar
  split_ifs <;> decide

theorem charDigit_digitChar (d : Nat) (h : d < 10) :
    charDigit (digitChar d) = some d := by
  interval_cases d <;> decide

theorem natOfKeyAux_append (l1 l2 : List Char) :
    ∀ (a m : Nat), natOfKeyAux l1 a = some m →
      natOfKeyAux (l1 ++ l2) a = natOfKeyAux l2 m := by
  induction l1 with
  | nil =>
      intro a m h
      obtain rfl : a = m := by simpa [natOfKeyAux] using h
      rfl
  | cons c rest ih =>
      intro a m h
      simp only [natOfKeyAux, List.cons_append] at h ⊢
      cases hc : charDigit c with
      | none =>
          rw [hc] at h
          exact absurd h (by simp)
      | some d =>
          rw [hc] at h
          exact ih _ _ h

theorem natOfKey_natKeyCharsAux (fuel : Nat) :
    ∀ n, n < fuel → natOfKeyAux (natKeyCharsAux fuel n []) 0 = some n := by
  induction fuel with
  | zero => intro n h; omega
  | succ fuel ih =>
      intro n h
      by_cases hn : n < 10
      · simp only [natKeyCharsAux, if_pos hn]
        simp [natOfKeyAux, charDigit_digitChar n hn]
      · simp only [natKeyCharsAux, if_neg hn]
        rw [natKeyCharsAux_append]
        have hdiv : n / 10 < fuel := by omega
        rw [natOfKeyAux_append _ _ _ _ (ih (n / 10) hdiv)]
        simp only [natOfKeyAux, charDigit_digitChar (n % 10)
          (Nat.mod_lt n (by norm_num))]
        rw [Option.some_inj]
        omega

theorem intOfKeyStr_mk_cons (c : Char) (rest : List Char) :
    intOfKeyStr (String.mk (c :: rest)) =
      if c = '-' then (natOfKeyAux rest 0).map (fun n => -(n : Int))
      else (natOfKeyAux (c :: rest) 0).map (fun n => (n : Int)) := rfl

theorem intKey_roundtrip (k : Int) : intOfKeyStr (intKeyStr k) = some k := by
  cases k with
  | ofNat n =>
      show intOfKeyStr (natKeyStr n) = some (Int.ofNat n)
      unfold natKeyStr
      cases hl : natKeyCharsAux (n + 1) n [] with
      | nil => exact absurd hl (natKeyCharsAux_ne_nil n n [])
      | cons c rest =>
          rw [intOfKeyStr_mk_cons]
          have hcmem : c ∈ natKeyCharsAux (n + 1) n [] := by
            rw [hl]
            exact List.mem_cons_self _ _
          rcases mem_natKeyCharsAux (n + 1) n [] c hcmem with h1 | ⟨d, hd, hcd⟩
          · simp at h1
          · rw [if_neg (by rw [hcd]; exact digitChar_ne_dash d)]
            rw [← hl, natOfKey_natKeyCharsAux (n + 1) n (Nat.lt_succ_self n)]
            rfl
  | negSucc n =>
      show intOfKeyStr (String.mk ('-' :: natKeyCharsAux (n + 2) (n + 1) []))
        = some (Int.negSucc n)
      rw [intOfKeyStr_mk_cons, if_pos rfl]
      rw [natOfKey_natKeyCharsAux (n + 2) (n + 1) (by omega)]
      simp [Int.negSucc_eq]

theorem letterOfStr_letterStr (l : Letter) : letterOfStr (letterStr l) = some l := by
  cases l <;> rfl

theorem encodeAnswers_cons (k : Int) (v : Letter) (rest : UserAnswers) :
    encodeAnswers ((k, v) :: rest) =
      (intKeyStr k, Json.str (letterStr v)) :: encodeAnswers rest := rfl

theorem decodeAnswers_encodeAnswers (m : UserAnswers) :
    decodeAnswers (encodeAnswers m) = some m := by
  induction m with
  | nil => rfl
  | cons p rest ih =>
      obtain ⟨k, v⟩ := p
      rw [encodeAnswers_cons]
      simp [decodeAnswers, intKey_roundtrip, letterOfStr_letterStr, ih]

theorem decodeQuestion_encodeQuestion (q : Question) :
    decodeQuestion (encodeQuestion q) = some q := by
  obtain ⟨n, t, ⟨a, b, c, d⟩, ca⟩ := q
  simp [encodeQuestion, decodeQuestion, letterOfStr_letterStr,
    Rat.den_intCast, Rat.num_intCast]

theorem decodeQuestions_map (qs : List Question) :
    decodeQuestions (qs.map encodeQuestion) = some qs := by
  induction qs with
  | nil => rfl
  | cons q qs ih => simp [decodeQuestions, decodeQuestion_encodeQuestion, ih]

theorem natOfJsonNum_natCast (n : Nat) : natOfJsonNum ((n : ℚ)) = some n := by
  simp [natOfJsonNum, Rat.den_natCast, Rat.num_natCast]

theorem decodeResult_encodeResult (r : ExamResult) :
    decodeResult (encodeResult r) = some r := by
  obtain ⟨sc, tot, p, ans, qs, cAt⟩ := r
  simp [encodeResult, decodeResult, natOfJsonNum_natCast,
    decodeAnswers_encodeAnswers, decodeQuestions_map]

theorem loadStoredResult_of_storage (t : AppState) (r : ExamResult)
    (h : t.storage = some (encodeResult r)) :
    (loadStoredResult t).lastExamResult = some r := by
  simp [loadStoredResult, h, decodeResult_encodeResult]

/-- Claim C9: serializing a result and parsing it back is the identity
(field for field, with the integer keys of the answers map preserved);
in particular the result written by `handleSubmit` into storage is
recovered exactly by the load effect, and the concrete answers map with
the non-contiguous keys 3 and 17 round-trips. -/
theorem result_roundtrip :
    (∀ r : ExamResult, decodeResult (encodeResult r) = some r) ∧
    (∀ now (s : AppState) (r : ExamResult),
       (handleSubmit now s).lastExamResult = some r →
       (handleSubmit now s).storage = some (encodeResult r) ∧
       (∀ t : AppState, t.storage = some (encodeResult r) →
          (loadStoredResult t).lastExamResult = some r)) ∧
    decodeResult (encodeResult sampleNonContigResult) =
      some sampleNonContigResult := by
  refine ⟨decodeResult_encodeResult, ?_, decodeResult_encodeResult _⟩
  intro now s r h
  constructor
  · simp only [handleSubmit] at h ⊢
    rw [Option.some_inj] at h
    rw [← h]
  · intro t ht
    exact loadStoredResult_of_storage t r ht

/-- Witness for claim C9: the concrete submitted result is persisted as
its exact serialization. -/
theorem result_roundtrip_witness :
    (handleSubmit "t" sampleExamState).storage =
      some (encodeResult sampleSubmittedResult) :=
  ((result_roundtrip.2.1) "t" sampleExamState sampleSubmittedResult rfl).1

/-- Claim C4: a percentage is classified as passed exactly when it is at
least 70, the boundary value 70 included; and over every reachable
score/total pair (at most 100 selected questions) the results screen's
two-decimal rounding agrees with the raw threshold. -/
theorem passed_iff_seventy :
    (∀ p : ℚ, isPassed p = true ↔ 70 ≤ p) ∧
    isPassed 70 = true ∧
    (∀ score total : Nat, 0 < total → total ≤ 100 → score ≤ total →
       resultsScreenPassed score total =
         isPassed (((score : ℚ) / (total : ℚ)) * 100)) := by
  refine ⟨?_, by norm_num [isPassed], ?_⟩
  · intro p
    simp [isPassed]
  · intro sc t ht h100 hst
    have ht0 : (0 : ℚ) < (t : ℚ) := by exact_mod_cast ht
    unfold resultsScreenPassed isPassed toFixed2
    rw [decide_eq_decide, round_eq]
    have e1 : (((sc : ℚ) / (t : ℚ)) * 100) * 100 = ((sc : ℚ) * 10000) / t := by
      field_simp
      ring
    rw [e1]
    have L : ((70 : ℚ) ≤
        ((Int.floor (((sc : ℚ) * 10000) / (t : ℚ) + 1 / 2) : ℤ) : ℚ) / 100) ↔
        (13999 * t ≤ 20000 * sc) := by
      rw [le_div_iff (by norm_num : (0 : ℚ) < 100)]
      rw [show (70 : ℚ) * 100 = ((7000 : ℤ) : ℚ) by norm_num]
      rw [Int.cast_le, Int.le_floor]
      rw [← sub_le_iff_le_add]
      rw [le_div_iff ht0]
      constructor
      · intro hh
        have h2 : (13999 : ℚ) * t ≤ 20000 * sc := by
          push_cast at hh ⊢
          linarith
        exact_mod_cast h2
      · intro hh
        have h2 : (13999 : ℚ) * t ≤ 20000 * sc := by exact_mod_cast hh
        push_cast
        linarith
    have R : ((70 : ℚ) ≤ ((sc : ℚ) / (t : ℚ)) * 100) ↔
        (70 * t ≤ 100 * sc) := by
      rw [div_mul_eq_mul_div, le_div_iff ht0]
      constructor
      · intro hh
        have h2 : (70 : ℚ) * t ≤ 100 * sc := by linarith
        exact_mod_cast h2
      · intro hh
        have h2 : (70 : ℚ) * t ≤ 100 * sc := by exact_mod_cast hh
        linarith
    constructor
    · intro hh
      apply R.mpr
      have := L.mp hh
      omega
    · intro hh
      apply L.mpr
      have := R.mp hh
      omega

/-- Witness for claim C4 at the exact boundary: seven of ten correct is
classified as passed identically by both derivations. -/
theorem passed_iff_seventy_witness :
    resultsScreenPassed 7 10 =
      isPassed ((((7 : Nat) : ℚ) / ((10 : Nat) : ℚ)) * 100) :=
  passed_iff_seventy.2.2 7 10 (by decide) (by decide) (by decide)
